import Mathlib

/-!
Shallow embedding of `src/index.js` (WildCodeSchool/tasks-api): an Express
service over a single in-memory list of tasks with three routes,
`POST /tasks`, `GET /tasks` and `PATCH /tasks/:id`.  Request bodies are
parsed JSON, so a destructured field may be a string, a boolean, another
JSON value, or `undefined` when absent; `JValue` models that.  Fresh ids
(`uniqid()`) and timestamps (`moment().format()`) are nondeterministic
inputs of the handlers and are passed as explicit parameters.
-/

namespace TasksApi

/-- A JavaScript value as seen by the handlers after JSON body parsing:
destructuring a missing field yields `undefined`. -/
inductive JValue where
  | jstr (s : String)
  | jbool (b : Bool)
  | jnum (n : Int)
  | jnull
  | jundefined
  deriving DecidableEq, Repr

/-- The task record stored in the `tasks` array
(`{ id, name, done, createdAt }`, src/index.js:156). -/
structure Task where
  id : String
  name : String
  done : Bool
  createdAt : String
  deriving DecidableEq, Repr

/-- The `validationErrorsByFieldName` object: at most one message per
field (`name`, `done`); a later assignment to the same field overwrites
the earlier one (src/index.js:140-143). -/
structure ValidationErrors where
  name : Option String
  done : Option String
  deriving DecidableEq, Repr

/-- JS `String.prototype.toLowerCase` on one character: like Lean's
`Char.toLower`, map a basic latin capital letter (codepoint 65-90) to
its lower-case form 32 codepoints higher, and fix every other character. -/
def jsCharToLower (c : Char) : Char :=
  if 65 ≤ c.toNat ∧ c.toNat ≤ 90 then Char.ofNat (c.toNat + 32) else c

/-- JS `name.toLowerCase()` (src/index.js:150, 153, 156), character by
character over the string's data. -/
def jsToLower (s : String) : String := ⟨s.data.map jsCharToLower⟩

/-- JS `typeof name === 'string' && name.length > 0` (src/index.js:141). -/
def isStringOfPosLen : JValue → Bool
  | .jstr s => decide (0 < s.length)
  | _ => false

/-- JS `typeof name === 'string' && name.length <= 50` (src/index.js:142). -/
def isStringOfLeLen50 : JValue → Bool
  | .jstr s => decide (s.length ≤ 50)
  | _ => false

/-- JS `typeof done === 'boolean'` (src/index.js:143, 240). -/
def isBoolean : JValue → Bool
  | .jbool _ => true
  | _ => false

/-- The three sequential validation assignments of the POST handler
(src/index.js:140-143); the second `name` assignment overwrites the first. -/
def validatePost (nameV doneV : JValue) : ValidationErrors :=
  let e0 : ValidationErrors := ⟨none, none⟩
  let e1 := if isStringOfPosLen nameV then e0 else ⟨some "Cannot be blank", e0.done⟩
  let e2 := if isStringOfLeLen50 nameV then e1 else ⟨some "Must contain less than 50 characters", e1.done⟩
  if isBoolean doneV then e2 else ⟨e2.name, some "Must be a boolean value"⟩

/-- The single validation assignment of the PATCH handler (src/index.js:239-240). -/
def validatePatch (doneV : JValue) : ValidationErrors :=
  if isBoolean doneV then ⟨none, none⟩ else ⟨none, some "Must be a boolean value"⟩

/-- Reading a JS value where the handler already knows it is a string. -/
def jvalAsString : JValue → String
  | .jstr s => s
  | _ => ""

/-- Reading a JS value where the handler already knows it is a boolean. -/
def jvalAsBool : JValue → Bool
  | .jbool b => b
  | _ => false

/-- JS `Array.prototype.unshift()` called with zero arguments
(src/index.js:160) inserts nothing at the front: the array is unchanged. -/
def unshiftNoArgs (l : List Task) : List Task := l

/-- Outcome of `POST /tasks`: 400 with field errors, 400 with the
conflict message naming the lower-cased name, or 201 with the new task. -/
inductive PostResult where
  | badRequest (errs : ValidationErrors)
  | conflict (loweredName : String)
  | created (t : Task)
  deriving DecidableEq, Repr

/-- HTTP status of each POST outcome (src/index.js:146, 152, 162). -/
def postStatus : PostResult → Nat
  | .badRequest _ => 400
  | .conflict _ => 400
  | .created _ => 201

/-- The `POST /tasks` handler (src/index.js:136-165): validate `name` and
`done`, reject a duplicate of the lower-cased name
(`_.find(tasks, { name: name.toLowerCase() })`), otherwise push
`{ id: uniqid(), name: name.toLowerCase(), done, createdAt: moment().format() }`;
the overflow branch `if (tasks.length > 50) tasks.unshift();` removes nothing. -/
def postTask (tasks : List Task) (nameV doneV : JValue) (freshId now : String) :
    List Task × PostResult :=
  let errs := validatePost nameV doneV
  if errs.name.isSome || errs.done.isSome then
    (tasks, .badRequest errs)
  else
    let lowered := jsToLower (jvalAsString nameV)
    match tasks.find? (fun t => t.name == lowered) with
    | some _ => (tasks, .conflict lowered)
    | none =>
      let newTask : Task := ⟨freshId, lowered, jvalAsBool doneV, now⟩
      let pushed := tasks ++ [newTask]
      let bounded := if 50 < pushed.length then unshiftNoArgs pushed else pushed
      (bounded, .created newTask)

/-- The `GET /tasks` handler (src/index.js:185-189): respond with the whole list. -/
def getTasks (tasks : List Task) : List Task := tasks

/-- Outcome of `PATCH /tasks/:id`: 400 with field errors, 404, or 200
with the updated task. -/
inductive PatchResult where
  | badRequest (errs : ValidationErrors)
  | notFound
  | ok (t : Task)
  deriving DecidableEq, Repr

/-- HTTP status of each PATCH outcome (src/index.js:243, 250, 252). -/
def patchStatus : PatchResult → Nat
  | .badRequest _ => 400
  | .notFound => 404
  | .ok _ => 200

/-- `_.find(tasks, { id })` followed by the in-place mutation
`existingTask.done = done` (src/index.js:247-249): update the first task
whose id matches, returning the new list and the updated task. -/
def updateDone : List Task → String → Bool → Option (List Task × Task)
  | [], _, _ => none
  | t :: ts, i, d =>
    if t.id == i then
      some (⟨t.id, t.name, d, t.createdAt⟩ :: ts, ⟨t.id, t.name, d, t.createdAt⟩)
    else
      match updateDone ts i d with
      | some (ts2, u) => some (t :: ts2, u)
      | none => none

/-- The `PATCH /tasks/:id` handler (src/index.js:234-255): validate
`done`, then set the matching task's `done` in place, or 404. -/
def patchTask (tasks : List Task) (id : String) (doneV : JValue) :
    List Task × PatchResult :=
  let errs := validatePatch doneV
  if errs.name.isSome || errs.done.isSome then
    (tasks, .badRequest errs)
  else
    match updateDone tasks id (jvalAsBool doneV) with
    | some (ts2, u) => (ts2, .ok u)
    | none => (tasks, .notFound)

/-- The seeded `initialTasks` array (src/index.js:65-85); the `uniqid()`
ids and `moment()` timestamps are nondeterministic, hence parameters. -/
def initialTasks (i1 i2 i3 c1 c2 c3 : String) : List Task :=
  [⟨i1, "be wild", true, c1⟩,
   ⟨i2, "begin this workshop", true, c2⟩,
   ⟨i3, "finish this workshop", false, c3⟩]

/-- The states of the `tasks` array reachable from the seeded initial
state through the three routes (GET does not change state). -/
inductive Reachable : List Task → Prop where
  | init (i1 i2 i3 c1 c2 c3 : String) : Reachable (initialTasks i1 i2 i3 c1 c2 c3)
  | post (s : List Task) (nameV doneV : JValue) (fid now : String) :
      Reachable s → Reachable (postTask s nameV doneV fid now).1
  | patch (s : List Task) (id : String) (doneV : JValue) :
      Reachable s → Reachable (patchTask s id doneV).1

/-- A list of successful-looking create requests folded over a state, used
to exhibit reachable states: each step performs `postTask` with the given
name (as both name and fresh id), done `false` and a fixed timestamp. -/
def pushAll (s : List Task) (ns : List String) : List Task :=
  ns.foldl (fun acc n => (postTask acc (.jstr n) (.jbool false) n "now").1) s

/-- The state obtained from the seeded initial state by creating eight
further tasks with fresh names. -/
def crowdedState : List Task :=
  pushAll (initialTasks "i1" "i2" "i3" "c1" "c2" "c3")
    ["t1", "t2", "t3", "t4", "t5", "t6", "t7", "t8"]

/-- Outcome of the spec's `deleteTask`: 204 empty or 404. -/
inductive DeleteResult where
  | noContent
  | notFound
  deriving DecidableEq, Repr

/-- Modelled from the spec: `deleteTask` is described in the spec
(`DELETE /{API_KEY}/tasks/{id}`) but `src/index.js` has no DELETE route;
it removes the task with that id from the list if present, and fails with
`NotFoundError` otherwise. -/
def deleteTask (tasks : List Task) (id : String) : List Task × DeleteResult :=
  if tasks.any (fun t => t.id == id) then
    (tasks.filter (fun t => !(t.id == id)), .noContent)
  else
    (tasks, .notFound)

/-- Modelled from the spec: the Key-Scoped Store mapping each issued API
key to its task list, in issuance order; `src/index.js` has a single
global `tasks` list and no key registry. -/
structure KeyStore where
  sessions : List (String × List Task)
  deriving DecidableEq, Repr

/-- Modelled from the spec: `resolve(apiKey) -> task list or AuthError`
fails (returns `none`, mapped to `UnauthorizedError`) if the key was
never issued or has since been evicted, i.e. has no session entry. -/
def resolve (st : KeyStore) (k : String) : Option (List Task) :=
  (st.sessions.find? (fun p => p.1 == k)).map (fun p => p.2)

/-- Replace the task list stored under an issued key. -/
def setSession (st : KeyStore) (k : String) (ts : List Task) : KeyStore :=
  ⟨st.sessions.map (fun p => if p.1 == k then (k, ts) else p)⟩

/-- Response of a key-gated route: 401, or the wrapped route outcome. -/
inductive GatedResult where
  | unauthorized
  | postR (r : PostResult)
  | listR (ts : List Task)
  | patchR (r : PatchResult)
  | deleteR (r : DeleteResult)
  deriving DecidableEq, Repr

/-- HTTP status of a key-gated response per the spec's response table. -/
def gatedStatus : GatedResult → Nat
  | .unauthorized => 401
  | .postR r => postStatus r
  | .listR _ => 200
  | .patchR r => patchStatus r
  | .deleteR .noContent => 204
  | .deleteR .notFound => 404

/-- Modelled from the spec: the create handler behind the key-resolution
gate; an unresolvable key yields 401 and no state change. -/
def gatedPost (st : KeyStore) (k : String) (nameV doneV : JValue) (fid now : String) :
    KeyStore × GatedResult :=
  match resolve st k with
  | none => (st, .unauthorized)
  | some ts =>
    let r := postTask ts nameV doneV fid now
    (setSession st k r.1, .postR r.2)

/-- Modelled from the spec: the list handler behind the key-resolution gate. -/
def gatedList (st : KeyStore) (k : String) : KeyStore × GatedResult :=
  match resolve st k with
  | none => (st, .unauthorized)
  | some ts => (st, .listR (getTasks ts))

/-- Modelled from the spec: the update handler behind the key-resolution gate. -/
def gatedPatch (st : KeyStore) (k : String) (id : String) (doneV : JValue) :
    KeyStore × GatedResult :=
  match resolve st k with
  | none => (st, .unauthorized)
  | some ts =>
    let r := patchTask ts id doneV
    (setSession st k r.1, .patchR r.2)

/-- Modelled from the spec: the delete handler behind the key-resolution gate. -/
def gatedDelete (st : KeyStore) (k : String) (id : String) : KeyStore × GatedResult :=
  match resolve st k with
  | none => (st, .unauthorized)
  | some ts =>
    let r := deleteTask ts id
    (setSession st k r.1, .deleteR r.2)

/-- Whitespace for the spec's notion of trimming. -/
def isWhitespaceChar (c : Char) : Bool :=
  c == ' ' || c == '\t' || c == '\n' || c == '\r'

/-- Modelled from the spec: the trimming step of the spec's name
normalization, removing leading and trailing whitespace. -/
def specTrim (s : String) : String :=
  ⟨((s.data.dropWhile isWhitespaceChar).reverse.dropWhile isWhitespaceChar).reverse⟩

/-- Modelled from the spec: the spec's validity rule for `name`, a string
of length 1-30 after trimming whitespace and lower-casing. -/
def specNameRule (s : String) : Bool :=
  decide (1 ≤ (jsToLower (specTrim s)).length) && decide ((jsToLower (specTrim s)).length ≤ 30)

theorem char_toNat_ofNat_small (m : Nat) (h : m < 55296) : (Char.ofNat m).toNat = m := by
  have hv : m.isValidChar := Or.inl h
  rw [Char.ofNat, dif_pos hv]
  rfl

theorem jsCharToLower_idem (c : Char) : jsCharToLower (jsCharToLower c) = jsCharToLower c := by
  unfold jsCharToLower
  by_cases h : 65 ≤ c.toNat ∧ c.toNat ≤ 90
  · rw [if_pos h]
    have h1 : (Char.ofNat (c.toNat + 32)).toNat = c.toNat + 32 :=
      char_toNat_ofNat_small _ (by omega)
    rw [if_neg (by rw [h1]; omega)]
  · rw [if_neg h, if_neg h]

theorem jsToLower_idem (s : String) : jsToLower (jsToLower s) = jsToLower s := by
  unfold jsToLower
  refine congrArg String.mk ?_
  rw [List.map_map]
  exact List.map_congr_left (fun c _ => jsCharToLower_idem c)

theorem find?_name_eq_none (l : List Task) (nm : String) (h : ∀ t ∈ l, t.name ≠ nm) :
    l.find? (fun t => t.name == nm) = none := by
  rw [List.find?_eq_none]
  intro t ht
  simpa using h t ht

theorem find?_name_isSome (l : List Task) (nm : String) (h : ∃ t ∈ l, t.name = nm) :
    ∃ u, l.find? (fun t => t.name == nm) = some u := by
  have hs : (l.find? (fun t => t.name == nm)).isSome := by
    rw [List.find?_isSome]
    obtain ⟨t, ht, hn⟩ := h
    exact ⟨t, ht, by simpa using hn⟩
  exact Option.isSome_iff_exists.mp hs

theorem validatePost_done_of_not_bool (nameV doneV : JValue) (h : isBoolean doneV = false) :
    (validatePost nameV doneV).done = some "Must be a boolean value" := by
  unfold validatePost
  rw [h]
  simp

theorem validatePost_of_valid (s : String) (d : Bool) (h1 : 0 < s.length) (h2 : s.length ≤ 50) :
    validatePost (.jstr s) (.jbool d) = ⟨none, none⟩ := by
  unfold validatePost
  simp [isStringOfPosLen, isStringOfLeLen50, isBoolean, h1, h2]

theorem validatePost_name_of_not_string (nameV doneV : JValue) (h : ∀ s, nameV ≠ .jstr s) :
    (validatePost nameV doneV).name = some "Must contain less than 50 characters" := by
  have hle : isStringOfLeLen50 nameV = false := by
    cases nameV with
    | jstr s => exact absurd rfl (h s)
    | jbool b => rfl
    | jnum n => rfl
    | jnull => rfl
    | jundefined => rfl
  unfold validatePost
  rw [hle]
  cases hb : isBoolean doneV <;> simp

theorem postTask_val_fail (tasks : List Task) (nameV doneV : JValue) (fid now : String)
    (h : ((validatePost nameV doneV).name.isSome || (validatePost nameV doneV).done.isSome)
      = true) :
    postTask tasks nameV doneV fid now = (tasks, .badRequest (validatePost nameV doneV)) := by
  unfold postTask
  dsimp only
  rw [h]
  simp

theorem postTask_find_some (tasks : List Task) (nameV doneV : JValue) (fid now : String)
    (u : Task)
    (hval : ((validatePost nameV doneV).name.isSome || (validatePost nameV doneV).done.isSome)
      = false)
    (hf : tasks.find? (fun t => t.name == jsToLower (jvalAsString nameV)) = some u) :
    postTask tasks nameV doneV fid now = (tasks, .conflict (jsToLower (jvalAsString nameV))) := by
  unfold postTask
  dsimp only
  rw [hval, hf]
  simp

theorem postTask_find_none (tasks : List Task) (nameV doneV : JValue) (fid now : String)
    (hval : ((validatePost nameV doneV).name.isSome || (validatePost nameV doneV).done.isSome)
      = false)
    (hf : tasks.find? (fun t => t.name == jsToLower (jvalAsString nameV)) = none) :
    postTask tasks nameV doneV fid now
      = (tasks ++ [⟨fid, jsToLower (jvalAsString nameV), jvalAsBool doneV, now⟩],
         .created ⟨fid, jsToLower (jvalAsString nameV), jvalAsBool doneV, now⟩) := by
  unfold postTask
  dsimp only
  rw [hval, hf]
  simp [unshiftNoArgs]

theorem postTask_success (tasks : List Task) (s : String) (d : Bool) (fid now : String)
    (h1 : 0 < s.length) (h2 : s.length ≤ 50) (h3 : ∀ t ∈ tasks, t.name ≠ jsToLower s) :
    postTask tasks (.jstr s) (.jbool d) fid now
      = (tasks ++ [⟨fid, jsToLower s, d, now⟩], .created ⟨fid, jsToLower s, d, now⟩) := by
  have hval : ((validatePost (.jstr s) (.jbool d)).name.isSome
      || (validatePost (.jstr s) (.jbool d)).done.isSome) = false := by
    rw [validatePost_of_valid s d h1 h2]
    rfl
  have hf : tasks.find? (fun t => t.name == jsToLower (jvalAsString (.jstr s))) = none :=
    find?_name_eq_none tasks (jsToLower s) h3
  exact postTask_find_none tasks (.jstr s) (.jbool d) fid now hval hf

theorem postTask_conflict_eq (tasks : List Task) (s : String) (d : Bool) (fid now : String)
    (h1 : 0 < s.length) (h2 : s.length ≤ 50) (h3 : ∃ t ∈ tasks, t.name = jsToLower s) :
    postTask tasks (.jstr s) (.jbool d) fid now = (tasks, .conflict (jsToLower s)) := by
  have hval : ((validatePost (.jstr s) (.jbool d)).name.isSome
      || (validatePost (.jstr s) (.jbool d)).done.isSome) = false := by
    rw [validatePost_of_valid s d h1 h2]
    rfl
  obtain ⟨u, hu⟩ := find?_name_isSome tasks (jsToLower s) h3
  exact postTask_find_some tasks (.jstr s) (.jbool d) fid now u hval hu

theorem postTask_created_append (tasks : List Task) (nameV doneV : JValue) (fid now : String)
    (t : Task) (h : (postTask tasks nameV doneV fid now).2 = .created t) :
    (postTask tasks nameV doneV fid now).1 = tasks ++ [t] := by
  cases hval : ((validatePost nameV doneV).name.isSome
      || (validatePost nameV doneV).done.isSome) with
  | true =>
    rw [postTask_val_fail tasks nameV doneV fid now hval] at h
    cases h
  | false =>
    cases hf : tasks.find? (fun t => t.name == jsToLower (jvalAsString nameV)) with
    | some u =>
      rw [postTask_find_some tasks nameV doneV fid now u hval hf] at h
      cases h
    | none =>
      rw [postTask_find_none tasks nameV doneV fid now hval hf] at h ⊢
      rw [PostResult.created.injEq] at h
      rw [h]

theorem updateDone_cons_hit (t : Task) (ts : List Task) (i : String) (d : Bool)
    (h : t.id = i) :
    updateDone (t :: ts) i d
      = some (⟨t.id, t.name, d, t.createdAt⟩ :: ts, ⟨t.id, t.name, d, t.createdAt⟩) := by
  simp [updateDone, h]

theorem updateDone_cons_miss (t : Task) (ts : List Task) (i : String) (d : Bool)
    (h : t.id ≠ i) :
    updateDone (t :: ts) i d
      = match updateDone ts i d with
        | some (ts2, u) => some (t :: ts2, u)
        | none => none := by
  simp [updateDone, h]

theorem updateDone_none_iff (l : List Task) (i : String) (d : Bool) :
    updateDone l i d = none ↔ ∀ t ∈ l, t.id ≠ i := by
  induction l with
  | nil => simp [updateDone]
  | cons t ts ih =>
    by_cases h : t.id = i
    · rw [updateDone_cons_hit t ts i d h]
      simp [h]
    · rw [updateDone_cons_miss t ts i d h]
      cases hu : updateDone ts i d with
      | some p =>
        simp only [List.mem_cons]
        constructor
        · intro hc; cases hc
        · intro hall
          rw [ih.mpr (fun u hu2 => hall u (Or.inr hu2))] at hu
          cases hu
      | none =>
        simp only [List.mem_cons]
        constructor
        · intro _ u hu2
          rcases hu2 with rfl | hmem
          · exact h
          · exact (ih.mp hu) u hmem
        · intro _; trivial

theorem updateDone_append (l1 : List Task) (t : Task) (l2 : List Task) (d : Bool)
    (h : ∀ u ∈ l1, u.id ≠ t.id) :
    updateDone (l1 ++ t :: l2) t.id d
      = some (l1 ++ ⟨t.id, t.name, d, t.createdAt⟩ :: l2, ⟨t.id, t.name, d, t.createdAt⟩) := by
  induction l1 with
  | nil => simpa using updateDone_cons_hit t l2 t.id d rfl
  | cons u us ih =>
    have hu : u.id ≠ t.id := h u (List.mem_cons_self u us)
    rw [List.cons_append, updateDone_cons_miss u (us ++ t :: l2) t.id d hu,
      ih (fun v hv => h v (List.mem_cons_of_mem u hv))]
    rfl

theorem updateDone_names (l : List Task) (i : String) (d : Bool) (l2 : List Task) (u : Task)
    (h : updateDone l i d = some (l2, u)) :
    ∀ t ∈ l2, ∃ t0 ∈ l, t.name = t0.name := by
  induction l generalizing l2 u with
  | nil => simp [updateDone] at h
  | cons a as ih =>
    by_cases ha : a.id = i
    · rw [updateDone_cons_hit a as i d ha] at h
      rw [Option.some.injEq, Prod.mk.injEq] at h
      obtain ⟨h1, _⟩ := h
      subst h1
      intro t ht
      rw [List.mem_cons] at ht
      rcases ht with hta | hmem
      · exact ⟨a, List.mem_cons_self a as, by rw [hta]⟩
      · exact ⟨t, List.mem_cons_of_mem a hmem, rfl⟩
    · rw [updateDone_cons_miss a as i d ha] at h
      cases hu : updateDone as i d with
      | some p =>
        cases p with
        | mk ts2 u2 =>
          rw [hu] at h
          simp only [Option.some.injEq, Prod.mk.injEq] at h
          obtain ⟨h1, _⟩ := h
          subst h1
          intro t ht
          rw [List.mem_cons] at ht
          rcases ht with hta | hmem
          · exact ⟨a, List.mem_cons_self a as, by rw [hta]⟩
          · obtain ⟨t0, ht0, hn⟩ := ih ts2 u2 hu t hmem
            exact ⟨t0, List.mem_cons_of_mem a ht0, hn⟩
      | none =>
        rw [hu] at h
        cases h

theorem patchTask_bool (tasks : List Task) (i : String) (d : Bool) :
    patchTask tasks i (.jbool d)
      = match updateDone tasks i d with
        | some (ts2, u) => (ts2, .ok u)
        | none => (tasks, .notFound) := by
  simp [patchTask, validatePatch, isBoolean, jvalAsBool]

theorem patchTask_not_bool (tasks : List Task) (i : String) (doneV : JValue)
    (h : isBoolean doneV = false) :
    patchTask tasks i doneV = (tasks, .badRequest ⟨none, some "Must be a boolean value"⟩) := by
  simp [patchTask, validatePatch, h]

theorem validatePost_name (nameV doneV : JValue) :
    (validatePost nameV doneV).name
      = if isStringOfLeLen50 nameV then
          (if isStringOfPosLen nameV then none else some "Cannot be blank")
        else some "Must contain less than 50 characters" := by
  unfold validatePost
  dsimp only
  cases hb : isBoolean doneV <;> cases h50 : isStringOfLeLen50 nameV <;>
    cases hp : isStringOfPosLen nameV <;> simp

theorem pushAll_reachable (ns : List String) (s : List Task) (h : Reachable s) :
    Reachable (pushAll s ns) := by
  induction ns generalizing s with
  | nil => exact h
  | cons n ns ih => exact ih _ (Reachable.post s (.jstr n) (.jbool false) n "now" h)

/-- C1 (counterexample): the name consisting of the letter a followed by
sixty spaces is valid per the spec's rule (one character after trimming
and lower-casing), yet the code rejects it with the length validation
error because its untrimmed length 61 exceeds 50, so create-then-list
yields no task with the lower-cased input name and given done flag. -/
theorem C1_counterexample :
    specNameRule (String.mk ('a' :: List.replicate 60 ' ')) = true ∧
    postTask [] (.jstr (String.mk ('a' :: List.replicate 60 ' '))) (.jbool false) "f1" "n1"
      = ([], .badRequest ⟨some "Must contain less than 50 characters", none⟩) ∧
    (getTasks (postTask [] (.jstr (String.mk ('a' :: List.replicate 60 ' ')))
        (.jbool false) "f1" "n1").1).countP
      (fun t => t.name == jsToLower (String.mk ('a' :: List.replicate 60 ' '))
        && t.done == false) = 0 := by
  refine ⟨by decide, by decide, by decide⟩

/-- C1 (amended): for every name the code accepts — a string of untrimmed
length 1 to 50 — and every boolean done, when no stored task already has
the lower-cased input as its name, performing createTask and then
listTasks yields a list containing exactly one task whose name equals the
lower-cased (not trimmed) input name and whose done flag equals the given
done. -/
theorem C1_create_then_list (tasks : List Task) (s : String) (d : Bool) (fid now : String)
    (h1 : 0 < s.length) (h2 : s.length ≤ 50) (h3 : ∀ t ∈ tasks, t.name ≠ jsToLower s) :
    (postTask tasks (.jstr s) (.jbool d) fid now).2 = .created ⟨fid, jsToLower s, d, now⟩ ∧
    (getTasks (postTask tasks (.jstr s) (.jbool d) fid now).1).countP
      (fun t => t.name == jsToLower s && t.done == d) = 1 := by
  rw [postTask_success tasks s d fid now h1 h2 h3]
  refine ⟨rfl, ?_⟩
  unfold getTasks
  rw [List.countP_append]
  have hz : tasks.countP (fun t => t.name == jsToLower s && t.done == d) = 0 := by
    rw [List.countP_eq_zero]
    intro t ht
    simp only [Bool.and_eq_true, beq_iff_eq, not_and]
    intro hn
    exact absurd hn (h3 t ht)
  rw [hz]
  simp [List.countP_cons]

/-- C1 (witness): a concrete successful create on the empty list. -/
theorem C1_create_then_list_witness :
    (postTask [] (.jstr "Buy Milk") (.jbool true) "f1" "n1").2
        = .created ⟨"f1", jsToLower "Buy Milk", true, "n1"⟩ ∧
    (getTasks (postTask [] (.jstr "Buy Milk") (.jbool true) "f1" "n1").1).countP
      (fun t => t.name == jsToLower "Buy Milk" && t.done == true) = 1 :=
  C1_create_then_list [] "Buy Milk" true "f1" "n1" (by decide) (by decide) (by simp)

/-- C2 (counterexample): a reachable state with eleven tasks exists — the
seeded three tasks plus eight successful creates — so a task list can
hold more than 10 entries and nothing is evicted. -/
theorem C2_counterexample : Reachable crowdedState ∧ 10 < crowdedState.length :=
  ⟨pushAll_reachable ["t1", "t2", "t3", "t4", "t5", "t6", "t7", "t8"] _
    (Reachable.init "i1" "i2" "i3" "c1" "c2" "c3"), by decide⟩

/-- C2 (amended): the task list is not bounded by 10 and no create ever
evicts a task: a successful createTask yields exactly the old list with
the new task appended, growing the length by one without limit (the
overflow branch, entered above 50 entries, calls unshift() with no
arguments, which removes nothing). -/
theorem C2_no_eviction (tasks : List Task) (nameV doneV : JValue) (fid now : String)
    (t : Task) (h : (postTask tasks nameV doneV fid now).2 = .created t) :
    (postTask tasks nameV doneV fid now).1 = tasks ++ [t] ∧
    (postTask tasks nameV doneV fid now).1.length = tasks.length + 1 := by
  have ha := postTask_created_append tasks nameV doneV fid now t h
  refine ⟨ha, ?_⟩
  rw [ha]
  simp

/-- C2 (witness): a concrete create appends and evicts nothing. -/
theorem C2_no_eviction_witness :
    (postTask [] (.jstr "a") (.jbool true) "f" "n").1
        = ([] : List Task) ++ [⟨"f", "a", true, "n"⟩] ∧
    (postTask [] (.jstr "a") (.jbool true) "f" "n").1.length
        = ([] : List Task).length + 1 :=
  C2_no_eviction [] (.jstr "a") (.jbool true) "f" "n" ⟨"f", "a", true, "n"⟩ (by decide)

/-- C3 (counterexample): the whitespace-only name consisting of a single
space is rejected by the spec's rule but accepted by the code: it passes
validation with no field error and a task named by that single space is
created. -/
theorem C3_counterexample :
    specNameRule " " = false ∧
    (validatePost (.jstr " ") (.jbool false)).name = none ∧
    postTask [] (.jstr " ") (.jbool false) "f" "n"
      = ([⟨"f", " ", false, "n"⟩], .created ⟨"f", " ", false, "n"⟩) := by
  refine ⟨by decide, by decide, by decide⟩

/-- C3 (amended): on create, the name field passes validation exactly when
it is a string whose raw length — without trimming; lower-casing does not
enter the check — is between 1 and 50 inclusive; a missing, non-string or
empty name and a name longer than 50 characters each produce a
field-level validation error on name. -/
theorem C3_name_accepted_iff (nameV doneV : JValue) :
    (validatePost nameV doneV).name = none
      ↔ ∃ s, nameV = .jstr s ∧ 1 ≤ s.length ∧ s.length ≤ 50 := by
  rw [validatePost_name nameV doneV]
  cases nameV with
  | jstr s =>
    simp only [isStringOfLeLen50, isStringOfPosLen]
    by_cases h2 : s.length ≤ 50 <;> by_cases h1 : 0 < s.length <;>
      simp [h1, h2] <;> omega
  | jbool b => simp [isStringOfLeLen50, isStringOfPosLen]
  | jnum n => simp [isStringOfLeLen50, isStringOfPosLen]
  | jnull => simp [isStringOfLeLen50, isStringOfPosLen]
  | jundefined => simp [isStringOfLeLen50, isStringOfPosLen]

/-- C4 (counterexample): a create request with a valid name and the done
field omitted (undefined) does not succeed with done defaulting to false:
it fails validation with the done error and the list is unchanged. -/
theorem C4_counterexample :
    postTask (initialTasks "i1" "i2" "i3" "c1" "c2" "c3") (.jstr "buy milk") .jundefined "f" "n"
      = (initialTasks "i1" "i2" "i3" "c1" "c2" "c3",
         .badRequest ⟨none, some "Must be a boolean value"⟩) := by
  decide

/-- C4 (amended): done is required on create: whatever the name and state,
omitting done makes the request fail with HTTP 400 and the field error
Must be a boolean value, the list unchanged; done never defaults to
false. -/
theorem C4_done_required (tasks : List Task) (nameV : JValue) (fid now : String) :
    postTask tasks nameV .jundefined fid now
      = (tasks, .badRequest (validatePost nameV .jundefined)) ∧
    (validatePost nameV .jundefined).done = some "Must be a boolean value" ∧
    postStatus (.badRequest (validatePost nameV .jundefined)) = 400 := by
  have hd := validatePost_done_of_not_bool nameV .jundefined rfl
  refine ⟨?_, hd, rfl⟩
  apply postTask_val_fail
  rw [hd]
  simp

/-- C5 (counterexample): the name made of a space followed by be wild
normalizes per the spec (trim then lower-case) to be wild, the name of a
seeded task, so the claim demands a conflict; the code, which lower-cases
but never trims, finds no duplicate and creates the task, changing the
list. -/
theorem C5_counterexample :
    jsToLower (specTrim " be wild") = "be wild" ∧
    ((initialTasks "i1" "i2" "i3" "c1" "c2" "c3").any (fun t => t.name == "be wild")) = true ∧
    postTask (initialTasks "i1" "i2" "i3" "c1" "c2" "c3") (.jstr " be wild") (.jbool false)
        "f4" "n4"
      = (initialTasks "i1" "i2" "i3" "c1" "c2" "c3" ++ [⟨"f4", " be wild", false, "n4"⟩],
         .created ⟨"f4", " be wild", false, "n4"⟩) := by
  refine ⟨by decide, by decide, by decide⟩

/-- C5 (amended): for every state and every create request passing field
validation whose name lower-cases (without trimming) to the stored name
of an existing task, createTask returns the conflict error with HTTP 400
and the task list is exactly the same afterwards as before. -/
theorem C5_conflict_unchanged (tasks : List Task) (s : String) (d : Bool) (fid now : String)
    (h1 : 0 < s.length) (h2 : s.length ≤ 50) (h3 : ∃ t ∈ tasks, t.name = jsToLower s) :
    postTask tasks (.jstr s) (.jbool d) fid now = (tasks, .conflict (jsToLower s)) ∧
    postStatus (.conflict (jsToLower s)) = 400 :=
  ⟨postTask_conflict_eq tasks s d fid now h1 h2 h3, rfl⟩

/-- C5 (witness): creating Be Wild over the seeded list conflicts with
the seeded task named be wild and leaves the list unchanged. -/
theorem C5_conflict_unchanged_witness :
    postTask (initialTasks "i1" "i2" "i3" "c1" "c2" "c3") (.jstr "Be Wild") (.jbool false)
        "f" "n"
      = (initialTasks "i1" "i2" "i3" "c1" "c2" "c3", .conflict (jsToLower "Be Wild")) ∧
    postStatus (.conflict (jsToLower "Be Wild")) = 400 :=
  C5_conflict_unchanged (initialTasks "i1" "i2" "i3" "c1" "c2" "c3") "Be Wild" false "f" "n"
    (by decide) (by decide)
    ⟨⟨"i1", "be wild", true, "c1"⟩, by decide, by decide⟩

/-- C6: updateTask on a stored task's id with body done true (the id's
first occurrence) sets that task's done field to true and leaves its
name, createdAt and id fields unchanged, as well as every other task. -/
theorem C6_patch_done_only (l1 l2 : List Task) (t : Task)
    (h : ∀ u ∈ l1, u.id ≠ t.id) :
    patchTask (l1 ++ t :: l2) t.id (.jbool true)
      = (l1 ++ ⟨t.id, t.name, true, t.createdAt⟩ :: l2,
         .ok ⟨t.id, t.name, true, t.createdAt⟩) := by
  rw [patchTask_bool, updateDone_append l1 t l2 true h]

/-- C6 (witness): a concrete patch flips only the done flag. -/
theorem C6_patch_done_only_witness :
    patchTask [⟨"a", "x", false, "c0"⟩, ⟨"b", "y", false, "c1"⟩] "b" (.jbool true)
      = ([⟨"a", "x", false, "c0"⟩, ⟨"b", "y", true, "c1"⟩], .ok ⟨"b", "y", true, "c1"⟩) :=
  C6_patch_done_only [⟨"a", "x", false, "c0"⟩] [] ⟨"b", "y", false, "c1"⟩ (by decide)

/-- C7: an update whose done field passes validation returns 404 exactly
when no task with the given id exists, and in that case the list is
unchanged. -/
theorem C7_patch_not_found (tasks : List Task) (i : String) (d : Bool) :
    ((patchTask tasks i (.jbool d)).2 = .notFound ↔ ∀ t ∈ tasks, t.id ≠ i) ∧
    ((∀ t ∈ tasks, t.id ≠ i) → patchTask tasks i (.jbool d) = (tasks, .notFound)) := by
  constructor
  · rw [patchTask_bool]
    cases hu : updateDone tasks i d with
    | some p =>
      cases p with
      | mk ts2 u =>
        constructor
        · intro hc
          simp at hc
        · intro hall
          rw [(updateDone_none_iff tasks i d).mpr hall] at hu
          simp at hu
    | none =>
      exact iff_of_true rfl ((updateDone_none_iff tasks i d).mp hu)
  · intro hall
    rw [patchTask_bool, (updateDone_none_iff tasks i d).mpr hall]

/-- C7 (witness): patching an unknown id over the seeded list. -/
theorem C7_patch_not_found_witness :
    ((patchTask (initialTasks "i1" "i2" "i3" "c1" "c2" "c3") "zz" (.jbool true)).2 = .notFound
      ↔ ∀ t ∈ initialTasks "i1" "i2" "i3" "c1" "c2" "c3", t.id ≠ "zz") ∧
    ((∀ t ∈ initialTasks "i1" "i2" "i3" "c1" "c2" "c3", t.id ≠ "zz")
      → patchTask (initialTasks "i1" "i2" "i3" "c1" "c2" "c3") "zz" (.jbool true)
        = (initialTasks "i1" "i2" "i3" "c1" "c2" "c3", .notFound)) :=
  C7_patch_not_found (initialTasks "i1" "i2" "i3" "c1" "c2" "c3") "zz" true

/-- C8: for each of the four task routes behind the key-resolution gate,
a key that resolves to no session (never issued or evicted) yields the
401 unauthorized response and the store is unchanged. -/
theorem C8_unauthorized_all_routes (st : KeyStore) (k : String)
    (h : resolve st k = none) (nameV doneV : JValue) (fid now tid : String) :
    gatedPost st k nameV doneV fid now = (st, .unauthorized) ∧
    gatedList st k = (st, .unauthorized) ∧
    gatedPatch st k tid doneV = (st, .unauthorized) ∧
    gatedDelete st k tid = (st, .unauthorized) ∧
    gatedStatus .unauthorized = 401 := by
  refine ⟨?_, ?_, ?_, ?_, rfl⟩
  · unfold gatedPost
    rw [h]
  · unfold gatedList
    rw [h]
  · unfold gatedPatch
    rw [h]
  · unfold gatedDelete
    rw [h]

/-- C8 (witness): every route with an unissued key on the empty store. -/
theorem C8_unauthorized_witness :
    gatedPost ⟨[]⟩ "x" (.jstr "a") (.jbool true) "f" "n" = (⟨[]⟩, .unauthorized) ∧
    gatedList ⟨[]⟩ "x" = (⟨[]⟩, .unauthorized) ∧
    gatedPatch ⟨[]⟩ "x" "t" (.jbool true) = (⟨[]⟩, .unauthorized) ∧
    gatedDelete ⟨[]⟩ "x" "t" = (⟨[]⟩, .unauthorized) ∧
    gatedStatus .unauthorized = 401 :=
  C8_unauthorized_all_routes ⟨[]⟩ "x" rfl (.jstr "a") (.jbool true) "f" "n" "t"

/-- C9: in every reachable state, every stored task has a fully
lower-case name: the seeds are lower-case, create stores the lower-cased
input, and update never touches a name. -/
theorem C9_names_lowercase (s : List Task) (h : Reachable s) :
    ∀ t ∈ s, jsToLower t.name = t.name := by
  induction h with
  | init i1 i2 i3 c1 c2 c3 =>
    intro t ht
    rw [initialTasks, List.mem_cons, List.mem_cons, List.mem_singleton] at ht
    rcases ht with rfl | rfl | rfl
    · show jsToLower "be wild" = "be wild"
      decide
    · show jsToLower "begin this workshop" = "begin this workshop"
      decide
    · show jsToLower "finish this workshop" = "finish this workshop"
      decide
  | post s nameV doneV fid now hr ih =>
    intro t ht
    cases hval : ((validatePost nameV doneV).name.isSome
        || (validatePost nameV doneV).done.isSome) with
    | true =>
      rw [postTask_val_fail s nameV doneV fid now hval] at ht
      exact ih t ht
    | false =>
      cases hf : s.find? (fun u => u.name == jsToLower (jvalAsString nameV)) with
      | some u =>
        rw [postTask_find_some s nameV doneV fid now u hval hf] at ht
        exact ih t ht
      | none =>
        rw [postTask_find_none s nameV doneV fid now hval hf] at ht
        replace ht : t ∈ s ++ [⟨fid, jsToLower (jvalAsString nameV), jvalAsBool doneV, now⟩] :=
          ht
        rw [List.mem_append, List.mem_singleton] at ht
        rcases ht with hmem | rfl
        · exact ih t hmem
        · exact jsToLower_idem (jvalAsString nameV)
  | patch s id doneV hr ih =>
    intro t ht
    cases doneV with
    | jbool b =>
      rw [patchTask_bool] at ht
      cases hu : updateDone s id b with
      | some p =>
        cases p with
        | mk ts2 u =>
          rw [hu] at ht
          replace ht : t ∈ ts2 := ht
          obtain ⟨t0, ht0, hn⟩ := updateDone_names s id b ts2 u hu t ht
          rw [hn]
          exact ih t0 ht0
      | none =>
        rw [hu] at ht
        exact ih t ht
    | jstr s2 =>
      rw [patchTask_not_bool s id (.jstr s2) rfl] at ht
      exact ih t ht
    | jnum n =>
      rw [patchTask_not_bool s id (.jnum n) rfl] at ht
      exact ih t ht
    | jnull =>
      rw [patchTask_not_bool s id .jnull rfl] at ht
      exact ih t ht
    | jundefined =>
      rw [patchTask_not_bool s id .jundefined rfl] at ht
      exact ih t ht

/-- C9 (witness): the invariant at the first seeded task of the initial
state. -/
theorem C9_names_lowercase_witness :
    jsToLower (Task.mk "i1" "be wild" true "c1").name = (Task.mk "i1" "be wild" true "c1").name :=
  C9_names_lowercase (initialTasks "i1" "i2" "i3" "c1" "c2" "c3")
    (Reachable.init "i1" "i2" "i3" "c1" "c2" "c3")
    ⟨"i1", "be wild", true, "c1"⟩ (by decide)

/-- C10: when the name field is absent or not a string, both name rules
fail, the second assignment overwrites the first, and the response
reports the length message for name together with the done error in one
body whenever done is also invalid; the list is unchanged. -/
theorem C10_name_error_overwritten (tasks : List Task) (nameV doneV : JValue)
    (fid now : String) (hn : ∀ s, nameV ≠ .jstr s) (hd : ∀ b, doneV ≠ .jbool b) :
    postTask tasks nameV doneV fid now
      = (tasks, .badRequest ⟨some "Must contain less than 50 characters",
          some "Must be a boolean value"⟩) := by
  have h1 := validatePost_name_of_not_string nameV doneV hn
  have hb : isBoolean doneV = false := by
    cases doneV with
    | jbool b => exact absurd rfl (hd b)
    | jstr s => rfl
    | jnum n => rfl
    | jnull => rfl
    | jundefined => rfl
  have h2 := validatePost_done_of_not_bool nameV doneV hb
  have hv : validatePost nameV doneV
      = ⟨some "Must contain less than 50 characters", some "Must be a boolean value"⟩ := by
    cases hE : validatePost nameV doneV with
    | mk n0 d0 =>
      rw [hE] at h1 h2
      replace h1 : n0 = some "Must contain less than 50 characters" := h1
      replace h2 : d0 = some "Must be a boolean value" := h2
      rw [h1, h2]
  rw [postTask_val_fail tasks nameV doneV fid now (by rw [hv]; rfl), hv]

/-- C10 (witness): an absent name and a null done produce both errors,
the name one being the overwritten length message. -/
theorem C10_name_error_overwritten_witness :
    postTask [] .jundefined .jnull "f" "n"
      = ([], .badRequest ⟨some "Must contain less than 50 characters",
          some "Must be a boolean value"⟩) :=
  C10_name_error_overwritten [] .jundefined .jnull "f" "n"
    (fun s h => by cases h) (fun b h => by cases h)

end TasksApi
